import Mathlib

/-!
Verification of the chat-moderation engine (message pipeline, Arabic-aware
text normalization and censored-word matching, sliding-window spam tracker,
trainable classifier state, and the persisted per-chat configuration store).

Each definition is a shallow embedding of the corresponding Python function,
named after it.  Strings are modelled as `List Char` / `String`, timestamps
as integers, the SQLite store as explicit association lists, and the
classifier's fitted sklearn pipeline as an abstract model value whose score
function is a parameter of the theorems.
-/

namespace Tmatma

/-! ## Text normalizer — `handlers/messages.py`, `normalize_arabic_text`

The Python function performs, in order:
1. `text.replace(mark, '')` for each of 15 Arabic diacritic marks;
2. `re.sub('[إأآٱٲٳٵ]', 'ا', text)` — fold alef variants to bare alef;
3. `re.sub('[ةه]', 'ه', text)` — fold teh-marbuta and heh;
4. `re.sub('[یيى]', 'ي', text)` — fold yeh variants.
Each step is a character-wise deletion or substitution, embedded below on
`List Char`.  Characters are written via their Unicode code points. -/

/-- The 15 diacritic marks removed by step 1 (U+064B–U+0658 and U+0670). -/
def diacritics : List Char :=
  [Char.ofNat 0x64B, Char.ofNat 0x64C, Char.ofNat 0x64D, Char.ofNat 0x64E,
   Char.ofNat 0x64F, Char.ofNat 0x650, Char.ofNat 0x651, Char.ofNat 0x652,
   Char.ofNat 0x653, Char.ofNat 0x654, Char.ofNat 0x655, Char.ofNat 0x656,
   Char.ofNat 0x657, Char.ofNat 0x658, Char.ofNat 0x670]

/-- Alef variants `[إأآٱٲٳٵ]` folded to bare alef `ا` (U+0627). -/
def alefSet : List Char :=
  [Char.ofNat 0x625, Char.ofNat 0x623, Char.ofNat 0x622, Char.ofNat 0x671,
   Char.ofNat 0x672, Char.ofNat 0x673, Char.ofNat 0x675]

/-- Target of the alef fold: `ا` (U+0627). -/
def alefChar : Char := Char.ofNat 0x627

/-- Teh-marbuta and heh `[ةه]` folded to heh `ه` (U+0647). -/
def hehSet : List Char := [Char.ofNat 0x629, Char.ofNat 0x647]

/-- Target of the heh fold: `ه` (U+0647). -/
def hehChar : Char := Char.ofNat 0x647

/-- Yeh variants `[یيى]` folded to `ي` (U+064A). -/
def yehSet : List Char := [Char.ofNat 0x6CC, Char.ofNat 0x64A, Char.ofNat 0x649]

/-- Target of the yeh fold: `ي` (U+064A). -/
def yehChar : Char := Char.ofNat 0x64A

/-- Step 1: remove all diacritic marks (`text.replace(mark, '')` loop). -/
def stripDiacritics (l : List Char) : List Char :=
  l.filter (fun c => !(diacritics.contains c))

/-- Character substitution of step 2. -/
def foldAlef (c : Char) : Char := if alefSet.contains c then alefChar else c

/-- Character substitution of step 3. -/
def foldHeh (c : Char) : Char := if hehSet.contains c then hehChar else c

/-- Character substitution of step 4. -/
def foldYeh (c : Char) : Char := if yehSet.contains c then yehChar else c

/-- Step 2 as a pass over the text. -/
def subAlef (l : List Char) : List Char := l.map foldAlef

/-- Step 3 as a pass over the text. -/
def subHeh (l : List Char) : List Char := l.map foldHeh

/-- Step 4 as a pass over the text. -/
def subYeh (l : List Char) : List Char := l.map foldYeh

/-- `normalize_arabic_text` on the character list: the four passes in the
order the source applies them. -/
def normalizeList (l : List Char) : List Char :=
  subYeh (subHeh (subAlef (stripDiacritics l)))

/-- `normalize_arabic_text` (handlers/messages.py). -/
def normalize_arabic_text (s : String) : String :=
  String.mk (normalizeList s.data)

/-- The three substitutions, as one character map. -/
def normChar (c : Char) : Char := foldYeh (foldHeh (foldAlef c))

theorem normalizeList_eq_filter_map (l : List Char) :
    normalizeList l =
      (l.filter (fun c => !(diacritics.contains c))).map normChar := by
  simp only [normalizeList, subYeh, subHeh, subAlef, stripDiacritics,
    List.map_map]
  rfl

theorem foldAlef_or (c : Char) : foldAlef c = alefChar ∨ foldAlef c = c := by
  unfold foldAlef
  split
  · exact Or.inl rfl
  · exact Or.inr rfl

theorem foldHeh_or (c : Char) : foldHeh c = hehChar ∨ foldHeh c = c := by
  unfold foldHeh
  split
  · exact Or.inl rfl
  · exact Or.inr rfl

theorem foldYeh_or (c : Char) : foldYeh c = yehChar ∨ foldYeh c = c := by
  unfold foldYeh
  split
  · exact Or.inl rfl
  · exact Or.inr rfl

/-- Every output character of the combined substitution is the input
character itself or one of the three fold targets. -/
theorem normChar_or (c : Char) :
    normChar c = c ∨ normChar c = alefChar ∨ normChar c = hehChar ∨
      normChar c = yehChar := by
  unfold normChar
  rcases foldAlef_or c with ha | ha
  · rw [ha]
    right; left; decide
  · rw [ha]
    rcases foldHeh_or c with hh | hh
    · rw [hh]
      right; right; left; decide
    · rw [hh]
      rcases foldYeh_or c with hy | hy
      · rw [hy]
        right; right; right; rfl
      · rw [hy]; left; rfl

/-- The combined substitution is a projection on characters. -/
theorem normChar_normChar (c : Char) : normChar (normChar c) = normChar c := by
  rcases normChar_or c with h | h | h | h
  · rw [h]; exact h
  · rw [h]; decide
  · rw [h]; decide
  · rw [h]; decide

/-- Substituted characters are never diacritic marks (the fold targets are
plain letters, and untouched characters keep their class). -/
theorem normChar_not_diacritic (c : Char)
    (hc : diacritics.contains c = false) :
    diacritics.contains (normChar c) = false := by
  rcases normChar_or c with h | h | h | h <;> rw [h]
  · exact hc
  all_goals decide

theorem filterMap_norm_idem (l : List Char) :
    ((((l.filter (fun c => !(diacritics.contains c))).map normChar).filter
          (fun c => !(diacritics.contains c))).map normChar)
      = (l.filter (fun c => !(diacritics.contains c))).map normChar := by
  induction l with
  | nil => rfl
  | cons c rest ih =>
      by_cases hm : c ∈ diacritics
      · simpa [List.filter_cons, hm] using ih
      · have hb : diacritics.contains c = false := by simpa using hm
        have h1 : normChar c ∉ diacritics := by
          simpa using normChar_not_diacritic c hb
        simpa [List.filter_cons, hm, h1, normChar_normChar] using ih

theorem normalizeList_idem (l : List Char) :
    normalizeList (normalizeList l) = normalizeList l := by
  rw [normalizeList_eq_filter_map l, normalizeList_eq_filter_map]
  exact filterMap_norm_idem l

/-- C9: the text normalizer is idempotent — `normalize(normalize(x)) = normalize(x)`
for every string `x`. -/
theorem claim_C9_normalizer_idempotent (x : String) :
    normalize_arabic_text (normalize_arabic_text x) = normalize_arabic_text x := by
  unfold normalize_arabic_text
  exact congrArg String.mk (normalizeList_idem x.data)

/-! ## Sliding-window spam tracker — `handlers/messages.py`, `check_spam`

`SPAM_TRACKER[(chat_id, user_id)]` holds `(message_id, timestamp)` pairs.
On each message the handler drops entries with `now - ts >= SPAM_TIME_WINDOW`
(it keeps `now - ts < SPAM_TIME_WINDOW`), appends the current message, and if
`len > spam_limit` it mutes the user (`restrict_chat_member`), deletes every
tracked message of the burst, and clears the key's list.  Timestamps are
embedded as integers; the mute/delete remote calls are recorded in the
result (`enforced` is the mute, `deleted` the ids passed to
`delete_message`). -/

/-- `SPAM_TIME_WINDOW` from `config.py` (seconds). -/
def SPAM_TIME_WINDOW : Int := 10

/-- One tracked entry `(message_id, timestamp)`. -/
abbrev SpamEntry := Nat × Int

/-- Outcome of one `check_spam` call for one `(chat, user)` key. -/
structure SpamResult where
  enforced : Bool
  deleted : List Nat
  tracker : List SpamEntry
  deriving Repr, DecidableEq

/-- `check_spam` (handlers/messages.py) for a single key: purge the window,
append the current message, compare against the chat's spam limit. -/
def check_spam (tracker : List SpamEntry) (messageId : Nat) (now : Int)
    (spamLimit : Nat) : SpamResult :=
  let kept := tracker.filter (fun e => now - e.2 < SPAM_TIME_WINDOW)
  let updated := kept ++ [(messageId, now)]
  if spamLimit < updated.length then
    { enforced := true, deleted := updated.map Prod.fst, tracker := [] }
  else
    { enforced := false, deleted := [], tracker := updated }

/-- Runs `check_spam` over a sequence of messages from one `(chat, user)`
key, returning the final tracked list and the deletion batch of every
enforcement that fired. -/
def runSpam (spamLimit : Nat) (tracker : List SpamEntry) :
    List SpamEntry → List SpamEntry × List (List Nat)
  | [] => (tracker, [])
  | m :: rest =>
      let r := check_spam tracker m.1 m.2 spamLimit
      let r2 := runSpam spamLimit r.tracker rest
      (r2.1, (if r.enforced then [r.deleted] else []) ++ r2.2)

theorem check_spam_keep_all (tracker : List SpamEntry) (messageId : Nat)
    (now : Int) (spamLimit : Nat)
    (h : ∀ e ∈ tracker, now - e.2 < SPAM_TIME_WINDOW) :
    check_spam tracker messageId now spamLimit =
      if spamLimit < tracker.length + 1 then
        ⟨true, (tracker ++ [(messageId, now)]).map Prod.fst, []⟩
      else
        ⟨false, [], tracker ++ [(messageId, now)]⟩ := by
  have hk : tracker.filter (fun e => now - e.2 < SPAM_TIME_WINDOW) = tracker :=
    List.filter_eq_self.mpr (fun e he => decide_eq_true (h e he))
  simp [check_spam, hk]

theorem check_spam_evict_all (tracker : List SpamEntry) (messageId : Nat)
    (now : Int) (spamLimit : Nat)
    (h : ∀ e ∈ tracker, ¬(now - e.2 < SPAM_TIME_WINDOW))
    (hL : 1 ≤ spamLimit) :
    check_spam tracker messageId now spamLimit =
      ⟨false, [], [(messageId, now)]⟩ := by
  have hk : tracker.filter (fun e => now - e.2 < SPAM_TIME_WINDOW) = [] := by
    rw [List.filter_eq_nil_iff]
    intro e he
    simpa using h e he
  simp [check_spam, hk, Nat.lt_irrefl]
  omega

/-- A burst of `L + 1` messages whose timestamps all lie within the window
is enforced exactly at its last message: every message id of the burst is
deleted and the tracked list is cleared. -/
theorem runSpam_burst (L : Nat) (rest : List SpamEntry) :
    ∀ pre : List SpamEntry,
      (∀ p ∈ pre ++ rest, ∀ q ∈ pre ++ rest, q.2 - p.2 < SPAM_TIME_WINDOW) →
      pre.length + rest.length = L + 1 → rest ≠ [] →
      runSpam L pre rest = ([], [(pre ++ rest).map Prod.fst]) := by
  induction rest with
  | nil => exact fun pre _ _ hne => absurd rfl hne
  | cons m rest' ih =>
      intro pre hwin hlen _
      have hm : m ∈ pre ++ m :: rest' :=
        List.mem_append_right _ (List.mem_cons_self _ _)
      have hkeep : ∀ e ∈ pre, m.2 - e.2 < SPAM_TIME_WINDOW := fun e he =>
        hwin e (List.mem_append_left _ he) m hm
      cases rest' with
      | nil =>
          have hlen' : pre.length + 1 = L + 1 := by simpa using hlen
          rw [runSpam, check_spam_keep_all pre m.1 m.2 L hkeep,
            if_pos (by omega)]
          simp [runSpam]
      | cons m' rest'' =>
          have hlen' : pre.length + 1 + (rest''.length + 1) = L + 1 := by
            simpa [Nat.add_assoc, Nat.add_comm, Nat.add_left_comm] using hlen
          rw [runSpam, check_spam_keep_all pre m.1 m.2 L hkeep,
            if_neg (by omega)]
          have hw' : ∀ p ∈ (pre ++ [m]) ++ m' :: rest'',
              ∀ q ∈ (pre ++ [m]) ++ m' :: rest'',
                q.2 - p.2 < SPAM_TIME_WINDOW := by
            intro p hp q hq
            apply hwin p (by simpa using hp) q (by simpa using hq)
          have := ih (pre ++ [m]) hw' (by simpa using hlen') (by simp)
          simpa using this

/-- Messages spaced strictly more than the window apart never accumulate:
each call sees only the current message after the purge. -/
theorem runSpam_spaced_aux (L : Nat) (hL : 1 ≤ L) (msgs : List SpamEntry) :
    ∀ m : SpamEntry,
      List.Chain' (fun p q => SPAM_TIME_WINDOW < q.2 - p.2) (m :: msgs) →
      (runSpam L [m] msgs).2 = [] := by
  induction msgs with
  | nil => intro m _; rfl
  | cons m' rest ih =>
      intro m hchain
      have hgap : SPAM_TIME_WINDOW < m'.2 - m.2 :=
        (List.chain'_cons.mp hchain).1
      have hnext : List.Chain' (fun p q => SPAM_TIME_WINDOW < q.2 - p.2)
          (m' :: rest) := (List.chain'_cons.mp hchain).2
      have hev : ∀ e ∈ [m], ¬(m'.2 - e.2 < SPAM_TIME_WINDOW) := by
        intro e he
        rw [List.mem_singleton] at he
        subst he
        omega
      rw [runSpam, check_spam_evict_all [m] m'.1 m'.2 L hev hL]
      simpa using ih m' hnext

theorem runSpam_spaced (L : Nat) (msgs : List SpamEntry)
    (hlen : msgs.length = L)
    (hchain : List.Chain' (fun p q => SPAM_TIME_WINDOW < q.2 - p.2) msgs) :
    (runSpam L [] msgs).2 = [] := by
  cases msgs with
  | nil => rfl
  | cons m rest =>
      have hL : 1 ≤ L := by simp at hlen; omega
      have h0 : check_spam [] m.1 m.2 L = ⟨false, [], [(m.1, m.2)]⟩ := by
        rw [check_spam_keep_all [] m.1 m.2 L (by simp),
          if_neg (by simp only [List.length_nil]; omega)]
        simp
      rw [runSpam, h0]
      simpa using runSpam_spaced_aux L hL rest m hchain

/-- C2: with antispam limit `L` and the fixed 10-second window, a burst of
`L + 1` messages whose timestamps all fall within the window triggers
enforcement exactly once — the mute fires at the last message and every
tracked message id of the burst is deleted — and leaves the tracked list
empty; `L` messages each spaced strictly more than the window apart never
trigger enforcement. -/
theorem claim_C2_spam_window :
    (∀ (L : Nat) (burst : List SpamEntry),
      burst.length = L + 1 →
      (∀ p ∈ burst, ∀ q ∈ burst, q.2 - p.2 < SPAM_TIME_WINDOW) →
      runSpam L [] burst = ([], [burst.map Prod.fst])) ∧
    (∀ (L : Nat) (msgs : List SpamEntry),
      msgs.length = L →
      List.Chain' (fun p q => SPAM_TIME_WINDOW < q.2 - p.2) msgs →
      (runSpam L [] msgs).2 = []) := by
  constructor
  · intro L burst hlen hwin
    have hne : burst ≠ [] := by
      intro h
      rw [h] at hlen
      simp at hlen
    simpa using runSpam_burst L burst [] (by simpa using hwin)
      (by simpa using hlen) hne
  · exact runSpam_spaced

/-- Witness for C2: a 2-message burst within the window under limit 1 is
enforced once, deleting both ids; two messages 20 seconds apart under
limit 2 are never enforced. -/
theorem claim_C2_spam_window_witness :
    runSpam 1 [] [(1, (0 : Int)), (2, 5)] = ([], [[1, 2]]) ∧
    (runSpam 2 [] [(10, (0 : Int)), (11, 20)]).2 = [] := by
  constructor
  · have := claim_C2_spam_window.1 1 [(1, (0 : Int)), (2, 5)]
      (by decide) (by decide)
    simpa using this
  · have := claim_C2_spam_window.2 2 [(10, (0 : Int)), (11, 20)]
      (by decide) (List.chain'_cons.mpr ⟨by decide, List.chain'_singleton _⟩)
    simpa using this

/-! ## Trainable classifier — `utils/ai_moderator.py`, class `AIModerator`

The moderator's state is its two labeled-example lists and the current
`self.pipeline` reference.  A fitted sklearn pipeline is abstracted as the
training data it was fitted on; the numeric score a fitted pipeline assigns
to a text (`predict_proba(...)[0][1] * 100`) is a parameter `score` of the
theorems, since the sklearn numerics are outside the embedding.  `fitOk`
models whether `pipeline.fit(X, y)` completes or raises. -/

/-- The value of the `self.pipeline` reference: a freshly constructed
`Pipeline([...])` on which `fit` has not completed, or a pipeline fitted on
the given example lists. -/
inductive PipelineModel
  | unfitted
  | fitted (bad good : List String)
  deriving Repr, DecidableEq

/-- State of the global `ai_moderator` singleton. -/
structure ModeratorState where
  bad_words : List String
  good_words : List String
  pipeline : Option PipelineModel
  deriving Repr, DecidableEq

/-- `AIModerator.train_model`.  With fewer than 2 examples in either class
the reference is set to `None`.  Otherwise the source executes
`self.pipeline = Pipeline([...])` — replacing the reference with the new,
not yet fitted pipeline — and only then `self.pipeline.fit(X, y)`; on a
successful fit the referenced pipeline becomes fitted on the current data,
on a failed fit the exception propagates (second component `true`) with the
reference still pointing at the new unfitted pipeline. -/
def train_model (m : ModeratorState) (fitOk : Bool) : ModeratorState × Bool :=
  if m.bad_words.length < 2 ∨ m.good_words.length < 2 then
    ({ m with pipeline := none }, false)
  else
    if fitOk then
      ({ m with pipeline := some (.fitted m.bad_words m.good_words) }, false)
    else
      ({ m with pipeline := some .unfitted }, true)

/-- `AIModerator.add_label`: deduplicated append to the labeled class, then
a synchronous retrain. -/
def add_label (m : ModeratorState) (text : String) (labelBad : Bool)
    (fitOk : Bool) : ModeratorState × Bool :=
  let m1 :=
    if labelBad then
      if m.bad_words.contains text then m
      else { m with bad_words := m.bad_words ++ [text] }
    else
      if m.good_words.contains text then m
      else { m with good_words := m.good_words ++ [text] }
  train_model m1 fitOk

/-- `AIModerator.predict_badness`.  `None` pipeline → `0.0`; a pipeline on
which `fit` never completed raises inside `predict_proba`, which the
`except` clause turns into `0.0`; a fitted pipeline yields the sklearn
probability, abstracted as `score`. -/
def predict_badness (score : List String → List String → String → ℚ)
    (m : ModeratorState) (text : String) : ℚ :=
  match m.pipeline with
  | none => 0
  | some .unfitted => 0
  | some (.fitted bad good) => score bad good text

/-- `AIModerator.is_bad`: badness strictly above the threshold. -/
def is_bad (score : List String → List String → String → ℚ)
    (m : ModeratorState) (text : String) (threshold : ℚ) : Bool :=
  predict_badness score m text > threshold

/-- Modelled from the spec: `check_ai_moderation` awaits
`ai_moderator.is_bad_async(text, threshold)`, whose definition is not among
the provided sources (the snapshot likewise lacks the AI command handlers
`label_bad`, `ai_moderation_on`, `debug_badness`, … that `main.py` imports
from `handlers.moderation`).  Spec §4.4 gives the is-bad contract as
`score(text) > threshold`, which is exactly the provided synchronous
`AIModerator.is_bad`; the async form is modelled as that operation. -/
def is_bad_async (score : List String → List String → String → ℚ)
    (m : ModeratorState) (text : String) (threshold : ℚ) : Bool :=
  is_bad score m text threshold

/-- A moderator holding a previously trained (published) model, with two
fresh examples per class ready for retraining. -/
def retrainCexState : ModeratorState :=
  { bad_words := ["b1", "b2"], good_words := ["g1", "g2"],
    pipeline := some (.fitted ["x1", "x2"] ["y1", "y2"]) }

/-- C3 counterexample: retraining with enough data but a failing fit does
NOT leave the previous model in use — the reference was already replaced
(before the fit) by the new unfitted pipeline, so the old model is lost and
a reader observes a half-trained (unfitted) model. -/
theorem claim_C3_cex_failed_fit_loses_old_model :
    (train_model retrainCexState false).2 = true ∧
    (train_model retrainCexState false).1.pipeline =
      some PipelineModel.unfitted ∧
    (train_model retrainCexState false).1.pipeline ≠
      retrainCexState.pipeline := by
  refine ⟨rfl, rfl, ?_⟩
  decide

/-- C3 (amended): on a retrain with at least 2 examples per class the model
reference is replaced with the freshly constructed pipeline before fitting:
a successful fit publishes the pipeline fitted on the current data, while a
failed fit propagates the exception and leaves the new UNFITTED pipeline —
not the previous model — as the published reference. -/
theorem claim_C3_model_replaced_before_fit (m : ModeratorState)
    (fitOk : Bool) (hb : 2 ≤ m.bad_words.length)
    (hg : 2 ≤ m.good_words.length) :
    (train_model m fitOk).1.pipeline =
      some (if fitOk then PipelineModel.fitted m.bad_words m.good_words
        else PipelineModel.unfitted) ∧
    (train_model m fitOk).2 = !fitOk := by
  have hcond : ¬(m.bad_words.length < 2 ∨ m.good_words.length < 2) := by
    omega
  cases fitOk <;> simp [train_model, hcond]

/-- Witness for C3 (amended) at a concrete retrain state. -/
theorem claim_C3_model_replaced_before_fit_witness :
    (train_model retrainCexState true).1.pipeline =
      some (PipelineModel.fitted ["b1", "b2"] ["g1", "g2"]) ∧
    (train_model retrainCexState true).2 = false := by
  have h := claim_C3_model_replaced_before_fit retrainCexState true
    (by decide) (by decide)
  simpa [retrainCexState] using h

/-- C7 counterexample: in the untrained state (no examples at all, pipeline
reset by `train_model`), `is_bad` with the NEGATIVE threshold `-1` returns
`true`, because the score `0` is strictly greater than `-1` — the claim's
"for every threshold" fails. -/
theorem claim_C7_cex_negative_threshold :
    (⟨[], [], none⟩ : ModeratorState).bad_words.length < 2 ∧
    is_bad (fun _ _ _ => 0)
      (train_model (⟨[], [], none⟩ : ModeratorState) true).1 "spam" (-1)
      = true := by
  constructor
  · decide
  · rfl

/-- C7 (amended): whenever fewer than 2 bad or fewer than 2 good examples
are stored, the state produced by the (re)training step scores every text
as 0, and `is_bad` is `false` for every text and every NONNEGATIVE
threshold (for a negative threshold it is `true`, since `0 > threshold`). -/
theorem claim_C7_untrained_scores_zero
    (score : List String → List String → String → ℚ) (m : ModeratorState)
    (fitOk : Bool) (text : String) (th : ℚ)
    (hfew : m.bad_words.length < 2 ∨ m.good_words.length < 2) :
    predict_badness score (train_model m fitOk).1 text = 0 ∧
    (0 ≤ th → is_bad score (train_model m fitOk).1 text th = false) := by
  have h1 : (train_model m fitOk).1.pipeline = none := by
    simp [train_model, hfew]
  have h2 : predict_badness score (train_model m fitOk).1 text = 0 := by
    simp [predict_badness, h1]
  refine ⟨h2, fun hth => ?_⟩
  simp [is_bad, h2]
  linarith

/-- Witness for C7 (amended): empty training data, threshold 5. -/
theorem claim_C7_untrained_scores_zero_witness :
    predict_badness (fun _ _ _ => 0)
      (train_model (⟨[], [], none⟩ : ModeratorState) true).1 "x" = 0 ∧
    (0 ≤ (5 : ℚ) → is_bad (fun _ _ _ => 0)
      (train_model (⟨[], [], none⟩ : ModeratorState) true).1 "x" 5 = false) :=
  claim_C7_untrained_scores_zero (fun _ _ _ => 0) ⟨[], [], none⟩ true "x" 5
    (Or.inl (by decide))

/-! ## Persistent configuration store — `utils/database.py`

The SQLite tables are embedded as association lists in insertion order; an
`INSERT OR REPLACE` first deletes any row that conflicts on the key and
then appends the fresh row, with every unspecified column taking its
declared column default. -/

/-- A row of `censored_words`: `(chat_id, word, is_strict)`, with
`UNIQUE(chat_id, word)`. -/
abbrev CensoredRow := String × String × Bool

abbrev CensoredTable := List CensoredRow

/-- `Database.add_censored_word`:
`INSERT OR REPLACE INTO censored_words (chat_id, word, is_strict)` — the
conflicting `(chat_id, word)` row, if any, is removed and the new row
inserted. -/
def add_censored_word (db : CensoredTable) (chatId word : String)
    (isStrict : Bool) : CensoredTable :=
  db.filter (fun r => !(r.1 == chatId && r.2.1 == word)) ++
    [(chatId, word, isStrict)]

/-- `Database.get_censored_words`:
`SELECT word, is_strict FROM censored_words WHERE chat_id = ?`. -/
def get_censored_words (db : CensoredTable) (chatId : String) :
    List (String × Bool) :=
  (db.filter (fun r => r.1 == chatId)).map (fun r => (r.2.1, r.2.2))

/-- The persisted entries a chat holds for one given word. -/
def entriesForWord (db : CensoredTable) (chatId word : String) :
    List (String × Bool) :=
  (get_censored_words db chatId).filter (fun e => e.1 == word)

theorem entriesForWord_filtered (db : CensoredTable) (c w : String) :
    (((db.filter (fun r => !(r.1 == c && r.2.1 == w))).filter
        (fun r => r.1 == c)).map (fun r => (r.2.1, r.2.2))).filter
      (fun e => e.1 == w) = [] := by
  rw [List.filter_eq_nil_iff]
  intro e he
  rcases List.mem_map.mp he with ⟨r, hr, rfl⟩
  have h1 := List.of_mem_filter hr
  have h2 := List.mem_of_mem_filter hr
  have h3 := List.of_mem_filter h2
  simp only [beq_iff_eq] at h1
  simp only [Bool.not_eq_true', Bool.and_eq_false_iff, beq_eq_false_iff_ne,
    ne_eq] at h3
  rcases h3 with h | h
  · exact absurd h1 h
  · simpa using h

theorem entriesForWord_add (db : CensoredTable) (c w : String) (s : Bool) :
    entriesForWord (add_censored_word db c w s) c w = [(w, s)] := by
  have h := entriesForWord_filtered db c w
  unfold entriesForWord get_censored_words add_censored_word
  rw [List.filter_append, List.map_append, List.filter_append, h]
  simp

/-- C4: after `add_censored_word`, the persisted censored list of the chat
holds exactly one entry for that word, carrying the flag just written; and
re-adding the same word overwrites the flag — last write wins. -/
theorem claim_C4_censor_upsert_last_write_wins (db : CensoredTable)
    (c w : String) (s s' : Bool) :
    entriesForWord (add_censored_word db c w s) c w = [(w, s)] ∧
    entriesForWord
      (add_censored_word (add_censored_word db c w s) c w s') c w
      = [(w, s')] :=
  ⟨entriesForWord_add db c w s,
   entriesForWord_add (add_censored_word db c w s) c w s'⟩

/-- A row of `chat_settings` (one per chat, `chat_id` primary key). -/
structure ChatSettingsRow where
  antispam_enabled : Bool
  spam_limit : Int
  mute_penalty : Int
  ai_enabled : Bool
  ai_threshold : ℚ
  deriving Repr, DecidableEq

/-- Column defaults of `chat_settings` after `Database.init_tables`: the
`CREATE TABLE` defaults (`antispam_enabled` 0, `spam_limit` 6,
`mute_penalty` 15) plus the migration columns
`ai_enabled INTEGER DEFAULT 0` and `ai_threshold REAL DEFAULT 60.0`. -/
def chatSettingsDefaults : ChatSettingsRow :=
  { antispam_enabled := false, spam_limit := 6, mute_penalty := 15,
    ai_enabled := false, ai_threshold := 60 }

abbrev ChatSettingsTable := List (String × ChatSettingsRow)

/-- The chat's settings row, if one exists. -/
def lookupSettings (db : ChatSettingsTable) (chatId : String) :
    Option ChatSettingsRow :=
  (db.find? (fun r => r.1 == chatId)).map (fun r => r.2)

/-- `INSERT OR REPLACE INTO chat_settings (chat_id, <column>) VALUES (?, ?)`:
the row with this primary key (if any) is deleted and a fresh row inserted,
unmentioned columns taking their column defaults. -/
def replaceSettings (db : ChatSettingsTable) (chatId : String)
    (row : ChatSettingsRow) : ChatSettingsTable :=
  db.filter (fun r => !(r.1 == chatId)) ++ [(chatId, row)]

/-- `Database.set_antispam`. -/
def set_antispam (db : ChatSettingsTable) (chatId : String)
    (enabled : Bool) : ChatSettingsTable :=
  replaceSettings db chatId
    { chatSettingsDefaults with antispam_enabled := enabled }

/-- `Database.set_ai_moderation`. -/
def set_ai_moderation (db : ChatSettingsTable) (chatId : String)
    (enabled : Bool) : ChatSettingsTable :=
  replaceSettings db chatId
    { chatSettingsDefaults with ai_enabled := enabled }

/-- `Database.set_ai_threshold`. -/
def set_ai_threshold (db : ChatSettingsTable) (chatId : String)
    (th : ℚ) : ChatSettingsTable :=
  replaceSettings db chatId
    { chatSettingsDefaults with ai_threshold := th }

/-- `Database.get_ai_threshold`: the stored column value when a row exists,
else the Python-side fallback `75.0`. -/
def get_ai_threshold (db : ChatSettingsTable) (chatId : String) : ℚ :=
  match lookupSettings db chatId with
  | some row => row.ai_threshold
  | none => 75

theorem lookupSettings_replace (db : ChatSettingsTable) (c : String)
    (row : ChatSettingsRow) :
    lookupSettings (replaceSettings db c row) c = some row := by
  unfold lookupSettings replaceSettings
  have hnone : (db.filter (fun r => !(r.1 == c))).find?
      (fun r => r.1 == c) = none := by
    rw [List.find?_eq_none]
    intro x hx
    have := List.of_mem_filter hx
    simpa using this
  rw [List.find?_append, hnone]
  simp

/-- C8 counterexample: enabling antispam on a fresh chat creates the
settings row lazily, and reading the AI threshold then returns the SQL
column default `60.0`, not the documented `75.0`. -/
theorem claim_C8_cex_lazy_row_gives_60 :
    get_ai_threshold (set_antispam [] "c" true) "c" = 60 ∧
    get_ai_threshold (set_antispam [] "c" true) "c" ≠ 75 := by
  constructor
  · rfl
  · intro h
    rw [show get_ai_threshold (set_antispam [] "c" true) "c" = 60 from rfl]
      at h
    norm_num at h

/-- C8 (amended): reading the AI threshold returns `75.0` only while the
chat has no settings row at all; once the row is created lazily by another
configuration write (such as enabling antispam), the threshold column's
default `60.0` is returned instead. -/
theorem claim_C8_threshold_default (db : ChatSettingsTable) (c : String)
    (hnone : lookupSettings db c = none) :
    get_ai_threshold db c = 75 ∧
    ∀ e : Bool, get_ai_threshold (set_antispam db c e) c = 60 := by
  constructor
  · unfold get_ai_threshold
    rw [hnone]
  · intro e
    unfold get_ai_threshold set_antispam
    rw [lookupSettings_replace]
    rfl

/-- Witness for C8 (amended): the empty store. -/
theorem claim_C8_threshold_default_witness :
    get_ai_threshold [] "c" = 75 ∧
    ∀ e : Bool, get_ai_threshold (set_antispam [] "c" e) "c" = 60 :=
  claim_C8_threshold_default [] "c" rfl

/-! ## Censored-word matching — `handlers/messages.py`, `check_censored_words`

The handler lowercases the message (`text.lower()`), normalizes it, and for
each `(word, is_strict)` entry normalizes `word.lower()` and matches:
strict entries by membership in the whitespace-split tokens
(`text_normalized.split()`), smart entries by
`re.search(r'\b' + re.escape(w) + r'\b', text)` — or, when the entry
contains a code point in U+0600–U+06FF, by
`re.search(r'(?:^|\s)' + re.escape(w) + r'(?:\s|$)', text)`.

Python's `str.lower` is embedded as ASCII lowercasing (the Arabic script
has no case).  Python's Unicode `\s` / `str.split()` whitespace class and
the `\w` class behind `\b` are embedded for the scripts this code handles:
ASCII plus the Arabic block (letters and digits are word characters, the
combining marks are not). -/

/-- Python `str.lower` per character (ASCII; caseless scripts unchanged). -/
def lowerChar (c : Char) : Char := c.toLower

/-- Python whitespace (`\s`, `str.split()`): ASCII whitespace, the file
separators U+001C–U+001F, NEL, NBSP and the Unicode space characters. -/
def isPySpace (c : Char) : Bool :=
  c == ' ' || c == '\t' || c == '\n' || c == '\r' ||
  c == Char.ofNat 0x0B || c == Char.ofNat 0x0C ||
  (Char.ofNat 0x1C ≤ c && c ≤ Char.ofNat 0x1F) ||
  c == Char.ofNat 0x85 || c == Char.ofNat 0xA0 ||
  c == Char.ofNat 0x1680 ||
  (Char.ofNat 0x2000 ≤ c && c ≤ Char.ofNat 0x200A) ||
  c == Char.ofNat 0x2028 || c == Char.ofNat 0x2029 ||
  c == Char.ofNat 0x202F || c == Char.ofNat 0x205F ||
  c == Char.ofNat 0x3000

/-- Python word character (`\w`), for ASCII and the Arabic block: ASCII
alphanumerics and underscore, Arabic letters (U+0620–U+064A and
U+066E–U+06D3 minus the combining superscript alef U+0670) and
Arabic-Indic digits. -/
def isWordChar (c : Char) : Bool :=
  ('a' ≤ c && c ≤ 'z') || ('A' ≤ c && c ≤ 'Z') || ('0' ≤ c && c ≤ '9') ||
  c == '_' ||
  (Char.ofNat 0x620 ≤ c && c ≤ Char.ofNat 0x64A) ||
  (Char.ofNat 0x660 ≤ c && c ≤ Char.ofNat 0x669) ||
  (Char.ofNat 0x66E ≤ c && c ≤ Char.ofNat 0x6D3 && !(c == Char.ofNat 0x670))

/-- `any('؀' <= c <= 'ۿ' for c in word)` from the handler. -/
def isArabicChar (c : Char) : Bool :=
  Char.ofNat 0x600 ≤ c && c ≤ Char.ofNat 0x6FF

/-- Python `str.split()` with no separator: whitespace-delimited tokens,
empty tokens discarded. -/
def pySplit (l : List Char) : List (List Char) :=
  (List.splitOnP isPySpace l).filter (fun tok => !tok.isEmpty)

/-- Word-character status of an optional adjacent character; `\b` treats
the string edge as a non-word position. -/
def bchar : Option Char → Bool
  | none => false
  | some c => isWordChar c

/-- `\b` holds at a position given the character just before it and the
remaining text. -/
def boundaryAt (prev : Option Char) (rest : List Char) : Bool :=
  bchar prev != bchar rest.head?

/-- The last character of `l`, falling back to the character before `l`. -/
def lastO (prev : Option Char) (l : List Char) : Option Char :=
  match l.getLast? with
  | some c => some c
  | none => prev

/-- The pattern `\b w \b` (with `w` literal, as produced by `re.escape`)
matches at the current position; `prev` is the character just before it. -/
def wbHere (w : List Char) (prev : Option Char) (t : List Char) : Bool :=
  w.isPrefixOf t && boundaryAt prev t &&
    boundaryAt (lastO prev w) (t.drop w.length)

/-- `re.search`: try the pattern at each position, left to right. -/
def wbScan (w : List Char) (prev : Option Char) : List Char → Bool
  | [] => wbHere w prev []
  | c :: rest => wbHere w prev (c :: rest) || wbScan w (some c) rest

/-- `re.search(r'\b' + re.escape(w) + r'\b', t)`. -/
def wordBoundMatch (w t : List Char) : Bool := wbScan w none t

/-- `(?:^|\s)` / `(?:\s|$)`: a string edge or a whitespace character. -/
def edgeOrSpace : Option Char → Bool
  | none => true
  | some c => isPySpace c

/-- The pattern `(?:^|\s) w (?:\s|$)` matches at the current position. -/
def sbHere (w : List Char) (prev : Option Char) (t : List Char) : Bool :=
  w.isPrefixOf t && edgeOrSpace prev && edgeOrSpace (t.drop w.length).head?

def sbScan (w : List Char) (prev : Option Char) : List Char → Bool
  | [] => sbHere w prev []
  | c :: rest => sbHere w prev (c :: rest) || sbScan w (some c) rest

/-- `re.search(r'(?:^|\s)' + re.escape(w) + r'(?:\s|$)', t)`. -/
def spaceBoundMatch (w t : List Char) : Bool := sbScan w none t

/-- One iteration of the entry loop in `check_censored_words`: `textNorm`
is the already normalized, lowercased message. -/
def entryMatches (textNorm : List Char) (word : String) (isStrict : Bool) :
    Bool :=
  let wn := normalizeList (word.data.map lowerChar)
  if isStrict then
    (pySplit textNorm).contains wn
  else if wn.any isArabicChar then
    spaceBoundMatch wn textNorm
  else
    wordBoundMatch wn textNorm

/-- `check_censored_words` (handlers/messages.py): `true` exactly when some
censored entry matches and the message is deleted. -/
def check_censored_words (text : String) (entries : List (String × Bool)) :
    Bool :=
  let tn := normalizeList (text.data.map lowerChar)
  entries.any (fun e => entryMatches tn e.1 e.2)

/-- C6: a strict censored entry matches exactly when the normalized,
lowercased entry equals one of the whitespace-split tokens of the
normalized, lowercased message text; in particular the strict entry "cat"
matches "i have a cat" but not "concatenate". -/
theorem claim_C6_strict_whole_token :
    (∀ (w t : String),
      check_censored_words t [(w, true)] =
        (pySplit (normalizeList (t.data.map lowerChar))).contains
          (normalizeList (w.data.map lowerChar))) ∧
    check_censored_words "i have a cat" [("cat", true)] = true ∧
    check_censored_words "concatenate" [("cat", true)] = false := by
  refine ⟨fun w t => ?_, by decide, by decide⟩
  simp [check_censored_words, entryMatches]

theorem isPrefixOf_iff_append (w : List Char) :
    ∀ t : List Char, w.isPrefixOf t = true ↔ ∃ b, t = w ++ b := by
  induction w with
  | nil =>
      intro t
      cases t <;> simp [List.isPrefixOf]
  | cons c w' ih =>
      intro t
      cases t with
      | nil =>
          simp [List.isPrefixOf]
      | cons d t' =>
          simp only [List.isPrefixOf, Bool.and_eq_true, beq_iff_eq, ih t',
            List.cons_append, List.cons.injEq]
          constructor
          · rintro ⟨rfl, b, rfl⟩
            exact ⟨b, rfl, rfl⟩
          · rintro ⟨b, rfl, rfl⟩
            exact ⟨rfl, b, rfl⟩

theorem lastO_none (a : List Char) : lastO none a = a.getLast? := by
  unfold lastO
  cases a.getLast? <;> rfl

theorem lastO_cons (prev : Option Char) (c : Char) (a : List Char) :
    lastO prev (c :: a) = lastO (some c) a := by
  cases a with
  | nil => rfl
  | cons d rest =>
      unfold lastO
      rw [List.getLast?_cons_cons]
      cases h : (d :: rest).getLast? with
      | none => simp at h
      | some x => rfl

theorem wbHere_iff (w : List Char) (prev : Option Char) (t : List Char) :
    wbHere w prev t = true ↔
      ∃ b, t = w ++ b ∧ boundaryAt prev t = true ∧
        boundaryAt (lastO prev w) b = true := by
  unfold wbHere
  simp only [Bool.and_eq_true]
  constructor
  · rintro ⟨⟨hpre, hb1⟩, hb2⟩
    rcases (isPrefixOf_iff_append w t).mp hpre with ⟨b, rfl⟩
    rw [List.drop_left] at hb2
    exact ⟨b, rfl, hb1, hb2⟩
  · rintro ⟨b, rfl, hb1, hb2⟩
    refine ⟨⟨(isPrefixOf_iff_append w _).mpr ⟨b, rfl⟩, hb1⟩, ?_⟩
    rwa [List.drop_left]

theorem wbScan_iff (w : List Char) :
    ∀ (t : List Char) (prev : Option Char),
      wbScan w prev t = true ↔
        ∃ a b, t = a ++ w ++ b ∧
          boundaryAt (lastO prev a) (w ++ b) = true ∧
          boundaryAt (lastO (lastO prev a) w) b = true := by
  intro t
  induction t with
  | nil =>
      intro prev
      rw [wbScan, wbHere_iff]
      constructor
      · rintro ⟨b, hb, h1, h2⟩
        rcases List.append_eq_nil.mp hb.symm with ⟨rfl, rfl⟩
        exact ⟨[], [], rfl, h1, h2⟩
      · rintro ⟨a, b, hab, h1, h2⟩
        have h0 := List.append_eq_nil.mp hab.symm
        rcases List.append_eq_nil.mp h0.1 with ⟨rfl, rfl⟩
        obtain rfl := h0.2
        exact ⟨[], rfl, h1, h2⟩
  | cons c rest ih =>
      intro prev
      rw [wbScan, Bool.or_eq_true, wbHere_iff, ih (some c)]
      constructor
      · rintro (⟨b, hb, h1, h2⟩ | ⟨a', b', h0, h1, h2⟩)
        · refine ⟨[], b, by simpa using hb, ?_, ?_⟩
          · rw [show lastO prev ([] : List Char) = prev from rfl, ← hb]
            exact h1
          · exact h2
        · refine ⟨c :: a', b', by simp [h0], ?_, ?_⟩
          · rwa [lastO_cons]
          · rwa [lastO_cons]
      · rintro ⟨a, b, hab, h1, h2⟩
        cases a with
        | nil =>
            left
            refine ⟨b, by simpa using hab, ?_, h2⟩
            rw [show (([] : List Char) ++ w ++ b) = w ++ b from by simp]
              at hab
            rw [hab]
            exact h1
        | cons c' a' =>
            right
            have hc : c' = c ∧ rest = a' ++ w ++ b := by
              have := hab
              simp only [List.cons_append, List.cons.injEq] at this
              exact ⟨this.1.symm, this.2⟩
            obtain ⟨rfl, hrest⟩ := hc
            rw [lastO_cons] at h1 h2
            exact ⟨a', b, hrest, h1, h2⟩

theorem sbHere_iff (w : List Char) (prev : Option Char) (t : List Char) :
    sbHere w prev t = true ↔
      ∃ b, t = w ++ b ∧ edgeOrSpace prev = true ∧
        edgeOrSpace b.head? = true := by
  unfold sbHere
  simp only [Bool.and_eq_true]
  constructor
  · rintro ⟨⟨hpre, hb1⟩, hb2⟩
    rcases (isPrefixOf_iff_append w t).mp hpre with ⟨b, rfl⟩
    rw [List.drop_left] at hb2
    exact ⟨b, rfl, hb1, hb2⟩
  · rintro ⟨b, rfl, hb1, hb2⟩
    refine ⟨⟨(isPrefixOf_iff_append w _).mpr ⟨b, rfl⟩, hb1⟩, ?_⟩
    rwa [List.drop_left]

theorem sbScan_iff (w : List Char) :
    ∀ (t : List Char) (prev : Option Char),
      sbScan w prev t = true ↔
        ∃ a b, t = a ++ w ++ b ∧
          edgeOrSpace (lastO prev a) = true ∧
          edgeOrSpace b.head? = true := by
  intro t
  induction t with
  | nil =>
      intro prev
      rw [sbScan, sbHere_iff]
      constructor
      · rintro ⟨b, hb, h1, h2⟩
        rcases List.append_eq_nil.mp hb.symm with ⟨rfl, rfl⟩
        exact ⟨[], [], rfl, h1, h2⟩
      · rintro ⟨a, b, hab, h1, h2⟩
        have h0 := List.append_eq_nil.mp hab.symm
        rcases List.append_eq_nil.mp h0.1 with ⟨rfl, rfl⟩
        obtain rfl := h0.2
        exact ⟨[], rfl, h1, h2⟩
  | cons c rest ih =>
      intro prev
      rw [sbScan, Bool.or_eq_true, sbHere_iff, ih (some c)]
      constructor
      · rintro (⟨b, hb, h1, h2⟩ | ⟨a', b', h0, h1, h2⟩)
        · exact ⟨[], b, by simpa using hb, h1, h2⟩
        · refine ⟨c :: a', b', by simp [h0], ?_, h2⟩
          rwa [lastO_cons]
      · rintro ⟨a, b, hab, h1, h2⟩
        cases a with
        | nil =>
            left
            exact ⟨b, by simpa using hab, h1, h2⟩
        | cons c' a' =>
            right
            have hc : c' = c ∧ rest = a' ++ w ++ b := by
              have := hab
              simp only [List.cons_append, List.cons.injEq] at this
              exact ⟨this.1.symm, this.2⟩
            obtain ⟨rfl, hrest⟩ := hc
            rw [lastO_cons] at h1
            exact ⟨a', b, hrest, h1, h2⟩

/-- C5: a non-strict (smart) entry without any Arabic-range code point
matches the normalized message exactly when the normalized entry occurs
with `\b` word boundaries on both sides (so entry "hi" does not match
message "ship"); an entry containing an Arabic-range code point matches
exactly when an occurrence is preceded and followed by whitespace or a
string edge (so entry "كيوت" never matches embedded inside a longer
undivided token). -/
theorem claim_C5_smart_boundary_match :
    (∀ (w : String) (tn : List Char),
      (normalizeList (w.data.map lowerChar)).any isArabicChar = false →
      (entryMatches tn w false = true ↔
        ∃ a b, tn = a ++ normalizeList (w.data.map lowerChar) ++ b ∧
          boundaryAt a.getLast?
            (normalizeList (w.data.map lowerChar) ++ b) = true ∧
          boundaryAt (lastO a.getLast? (normalizeList (w.data.map lowerChar)))
            b = true)) ∧
    (∀ (w : String) (tn : List Char),
      (normalizeList (w.data.map lowerChar)).any isArabicChar = true →
      (entryMatches tn w false = true ↔
        ∃ a b, tn = a ++ normalizeList (w.data.map lowerChar) ++ b ∧
          edgeOrSpace a.getLast? = true ∧
          edgeOrSpace b.head? = true)) ∧
    check_censored_words "ship" [("hi", false)] = false ∧
    check_censored_words "بكيوتب" [("كيوت", false)] = false ∧
    check_censored_words "هي كيوت" [("كيوت", false)] = true := by
  refine ⟨fun w tn harab => ?_, fun w tn harab => ?_, by decide, by decide,
    by decide⟩
  · rw [show entryMatches tn w false =
        wordBoundMatch (normalizeList (w.data.map lowerChar)) tn from by
      simp [entryMatches, harab]]
    rw [wordBoundMatch, wbScan_iff]
    constructor
    · rintro ⟨a, b, hab, h1, h2⟩
      rw [lastO_none] at h1 h2
      exact ⟨a, b, hab, h1, h2⟩
    · rintro ⟨a, b, hab, h1, h2⟩
      rw [← lastO_none a] at h1 h2
      exact ⟨a, b, hab, h1, h2⟩
  · rw [show entryMatches tn w false =
        spaceBoundMatch (normalizeList (w.data.map lowerChar)) tn from by
      simp [entryMatches, harab]]
    rw [spaceBoundMatch, sbScan_iff]
    constructor
    · rintro ⟨a, b, hab, h1, h2⟩
      rw [lastO_none] at h1
      exact ⟨a, b, hab, h1, h2⟩
    · rintro ⟨a, b, hab, h1, h2⟩
      rw [← lastO_none a] at h1
      exact ⟨a, b, hab, h1, h2⟩

/-- Witness for C5, at entry "hi" against message "ship" (no match: the
occurrence inside "ship" has word characters on both sides) and entry
"كيوت" against "هي كيوت" (match after a space). -/
theorem claim_C5_smart_boundary_match_witness :
    ((normalizeList ("hi".data.map lowerChar)).any isArabicChar = false ∧
      (entryMatches "ship".data "hi" false = true ↔
        ∃ a b, "ship".data = a ++ normalizeList ("hi".data.map lowerChar) ++ b ∧
          boundaryAt a.getLast?
            (normalizeList ("hi".data.map lowerChar) ++ b) = true ∧
          boundaryAt
            (lastO a.getLast? (normalizeList ("hi".data.map lowerChar)))
            b = true)) ∧
    ((normalizeList ("كيوت".data.map lowerChar)).any isArabicChar = true ∧
      (entryMatches "هي كيوت".data "كيوت" false = true ↔
        ∃ a b, "هي كيوت".data =
            a ++ normalizeList ("كيوت".data.map lowerChar) ++ b ∧
          edgeOrSpace a.getLast? = true ∧
          edgeOrSpace b.head? = true)) :=
  ⟨⟨by decide, claim_C5_smart_boundary_match.1 "hi" "ship".data (by decide)⟩,
   ⟨by decide,
    claim_C5_smart_boundary_match.2.1 "كيوت" "هي كيوت".data (by decide)⟩⟩

/-! ## Message pipeline — `handlers/messages.py`, `handle_messages`

The handler runs, in order: anti-spam (skipped when antispam is disabled
for the chat or the sender is `ADMIN_ID`), the bypass computation, sticker
blocking, word censoring, AI moderation, and finally the custom
auto-responses.  Each enforcing step returns from the handler.  Remote
delete/mute calls are assumed to succeed (the source swallows their
failures). -/

/-- Outcome of `handle_messages` for one inbound message. -/
inductive PipelineOutcome
  | spamEnforced (deleted : List Nat)
  | stickerDeleted
  | censorDeleted
  | aiDeleted
  | passed
  deriving Repr, DecidableEq

/-- One inbound message together with what the platform reports about its
sender: `status` is the result of `get_user_status` (the chat-member
status, or "member" when the fetch fails) and `canDeleteMessages` the
`can_delete_messages` flag of the second `get_chat_member` call (`none`
when that call raises). -/
structure InboundMessage where
  userId : Nat
  messageId : Nat
  timestamp : Int
  text : Option String
  stickerSet : Option String
  status : String
  canDeleteMessages : Option Bool

/-- The per-chat configuration the handler reads from the store. -/
structure ChatConfig where
  antispamEnabled : Bool
  spamLimit : Nat
  adminBypass : Bool
  blockedSets : List String
  censored : List (String × Bool)
  aiEnabled : Bool
  aiThreshold : ℚ

/-- Step 2 of `handle_messages`: `user_can_bypass = user_id == ADMIN_ID`;
then, only when admin bypass is enabled for the chat AND the status is
exactly "administrator", a successful member fetch reporting
`can_delete_messages` sets the flag. -/
def user_can_bypass (adminId userId : Nat) (status : String)
    (canDeleteMessages : Option Bool) (adminBypassEnabled : Bool) : Bool :=
  userId == adminId ||
    (adminBypassEnabled && status == "administrator" &&
      canDeleteMessages == some true)

/-- `admin_or_owner` (utils/decorators.py): whether the wrapped command
handler runs for this invoker — the owner, a chat creator, or an
administrator with delete permission. -/
def admin_or_owner_allows (adminId userId : Nat) (status : String)
    (canDeleteMessages : Option Bool) : Bool :=
  userId == adminId || status == "creator" ||
    (status == "administrator" && canDeleteMessages == some true)

/-- `check_blocked_sticker`: no sticker (or no set name) never triggers;
otherwise the lowercased set name is looked up among the chat's blocked
sets. -/
def check_blocked_sticker (blockedSets : List String)
    (stickerSet : Option String) : Bool :=
  match stickerSet with
  | none => false
  | some s => blockedSets.contains (String.mk (s.data.map lowerChar))

/-- `check_ai_moderation` (handlers/messages.py): skipped when AI
moderation is disabled for the chat; otherwise the message is deleted
exactly when `is_bad_async` flags the text against the chat's threshold. -/
def check_ai_moderation (score : List String → List String → String → ℚ)
    (m : ModeratorState) (aiEnabled : Bool) (threshold : ℚ)
    (text : String) : Bool :=
  if !aiEnabled then false
  else is_bad_async score m text threshold

/-- Step 1 of `handle_messages`: the spam check runs only when antispam is
enabled for the chat and the sender is not `ADMIN_ID`. -/
def spam_step (cfg : ChatConfig) (adminId : Nat)
    (tracker : List SpamEntry) (msg : InboundMessage) : SpamResult :=
  if cfg.antispamEnabled && !(msg.userId == adminId) then
    check_spam tracker msg.messageId msg.timestamp cfg.spamLimit
  else
    { enforced := false, deleted := [], tracker := tracker }

/-- `handle_messages`: the enforcement pipeline for one inbound message,
returning the outcome (`passed` covers the non-enforcing auto-response
stage) and the updated spam tracker for the sender's key. -/
def handle_messages (score : List String → List String → String → ℚ)
    (adminId : Nat) (cfg : ChatConfig) (moderator : ModeratorState)
    (tracker : List SpamEntry) (msg : InboundMessage) :
    PipelineOutcome × List SpamEntry :=
  let s := spam_step cfg adminId tracker msg
  if s.enforced then (.spamEnforced s.deleted, s.tracker)
  else
    let bypass := user_can_bypass adminId msg.userId msg.status
      msg.canDeleteMessages cfg.adminBypass
    if msg.stickerSet.isSome && !bypass &&
        check_blocked_sticker cfg.blockedSets msg.stickerSet then
      (.stickerDeleted, s.tracker)
    else
      match msg.text with
      | none => (.passed, s.tracker)
      | some text =>
          if bypass then (.passed, s.tracker)
          else if check_censored_words text cfg.censored then
            (.censorDeleted, s.tracker)
          else if check_ai_moderation score moderator cfg.aiEnabled
              cfg.aiThreshold text then
            (.aiDeleted, s.tracker)
          else (.passed, s.tracker)

/-- C1: for a text message in a chat with AI moderation enabled, a sender
without the bypass flag, and no earlier check enforcing, the classifier
stage deletes the message — ending the pipeline with outcome `aiDeleted`,
skipping the auto-responses — exactly when the badness score is strictly
greater than the chat's threshold; otherwise the message passes through.
(`is_bad_async` is modelled from the spec, see its definition.) -/
theorem claim_C1_ai_check_deletes_iff_score_above
    (score : List String → List String → String → ℚ) (adminId : Nat)
    (cfg : ChatConfig) (moderator : ModeratorState)
    (tracker : List SpamEntry) (msg : InboundMessage) (text : String)
    (htext : msg.text = some text)
    (hai : cfg.aiEnabled = true)
    (hbypass : user_can_bypass adminId msg.userId msg.status
      msg.canDeleteMessages cfg.adminBypass = false)
    (hspam : (spam_step cfg adminId tracker msg).enforced = false)
    (hsticker : check_blocked_sticker cfg.blockedSets msg.stickerSet = false)
    (hcensor : check_censored_words text cfg.censored = false) :
    ((handle_messages score adminId cfg moderator tracker msg).1 =
        .aiDeleted ↔
      predict_badness score moderator text > cfg.aiThreshold) ∧
    (predict_badness score moderator text ≤ cfg.aiThreshold →
      (handle_messages score adminId cfg moderator tracker msg).1 =
        .passed) := by
  have hmain : (handle_messages score adminId cfg moderator tracker msg).1 =
      if cfg.aiThreshold < predict_badness score moderator text then
        PipelineOutcome.aiDeleted
      else PipelineOutcome.passed := by
    unfold handle_messages
    rw [htext]
    rcases lt_or_ge cfg.aiThreshold (predict_badness score moderator text)
      with hlt | hge
    · rw [if_pos hlt]
      simp [hspam, hbypass, hsticker, hcensor, check_ai_moderation, hai,
        is_bad_async, is_bad, hlt]
    · rw [if_neg (not_lt.mpr hge)]
      simp [hspam, hbypass, hsticker, hcensor, check_ai_moderation, hai,
        is_bad_async, is_bad, not_lt.mpr hge]
  constructor
  · rw [hmain]
    constructor
    · intro h
      by_contra hn
      rw [if_neg hn] at h
      exact PipelineOutcome.noConfusion h
    · intro h
      rw [if_pos h]
  · intro h
    rw [hmain, if_neg (not_lt.mpr h)]

/-- A trained moderator whose abstract score function reports 80 for every
text, against a chat threshold of 75. -/
def pipelineCfg : ChatConfig :=
  { antispamEnabled := false, spamLimit := 6, adminBypass := false,
    blockedSets := [], censored := [], aiEnabled := true,
    aiThreshold := 75 }

def pipelineMsg : InboundMessage :=
  { userId := 5, messageId := 100, timestamp := 0, text := some "x",
    stickerSet := none, status := "member", canDeleteMessages := none }

/-- Witness for C1: with a constant score of 80 against threshold 75, the
pipeline ends at the classifier stage with the message deleted. -/
theorem claim_C1_ai_check_deletes_iff_score_above_witness :
    ((handle_messages (fun _ _ _ => 80) 1 pipelineCfg retrainCexState []
        pipelineMsg).1 = .aiDeleted ↔
      predict_badness (fun _ _ _ => 80) retrainCexState "x" > (75 : ℚ)) ∧
    (predict_badness (fun _ _ _ => 80) retrainCexState "x" ≤ (75 : ℚ) →
      (handle_messages (fun _ _ _ => 80) 1 pipelineCfg retrainCexState []
        pipelineMsg).1 = .passed) :=
  claim_C1_ai_check_deletes_iff_score_above (fun _ _ _ => 80) 1 pipelineCfg
    retrainCexState [] pipelineMsg "x" rfl rfl rfl rfl rfl rfl

/-- C10: a non-owner sender whose chat-member status is "creator" never
receives the content-check bypass flag — with admin bypass enabled, only
status exactly "administrator" with message-deletion permission does —
although the command-permission decorator authorizes a "creator" to run
every admin moderation command. -/
theorem claim_C10_creator_gets_no_bypass (adminId userId : Nat)
    (h : userId ≠ adminId) :
    (∀ (bypassEnabled : Bool) (fetch : Option Bool),
      user_can_bypass adminId userId "creator" fetch bypassEnabled
        = false) ∧
    (∀ fetch : Option Bool,
      admin_or_owner_allows adminId userId "creator" fetch = true) ∧
    (∀ (status : String) (fetch : Option Bool),
      user_can_bypass adminId userId status fetch true = true ↔
        status = "administrator" ∧ fetch = some true) := by
  have hne : (userId == adminId) = false := by
    simpa using h
  refine ⟨fun bypassEnabled fetch => ?_, fun fetch => ?_,
    fun status fetch => ?_⟩
  · simp [user_can_bypass, hne]
  · simp [admin_or_owner_allows]
  · simp [user_can_bypass, hne]

/-- Witness for C10: owner id 1, sender id 2. -/
theorem claim_C10_creator_gets_no_bypass_witness :
    user_can_bypass 1 2 "creator" (some true) true = false ∧
    admin_or_owner_allows 1 2 "creator" none = true ∧
    (user_can_bypass 1 2 "administrator" (some true) true = true ↔
      "administrator" = "administrator" ∧
        (some true : Option Bool) = some true) :=
  ⟨(claim_C10_creator_gets_no_bypass 1 2 (by decide)).1 true (some true),
   (claim_C10_creator_gets_no_bypass 1 2 (by decide)).2.1 none,
   (claim_C10_creator_gets_no_bypass 1 2 (by decide)).2.2 "administrator"
     (some true)⟩

end Tmatma
